import Mathlib

/-
Verification of the winding-machine firmware in Final_dig.c.

The embedding models the core control logic:
- the calibration constants and pulse/metre conversion (PULSOS_POR_METRO and
  friends, lines 48-52, and the target computation in enrollar_hasta line 314);
- the solenoid-turns calculation calcular_vueltas_para_mH (lines 380-394);
- the servo sweep mover_servo_oscilando (lines 168-177), modelled as the list
  of angles one call commands, and the infinite command stream produced by the
  control loop calling it repeatedly;
- the optical-encoder interrupt handler gpio_callback (lines 91-95) and the
  pulse counter it increments;
- the four winding loops enrollar_hasta (313-361), enrollar_auto (202-257),
  enrollar_cobre_manual (452-515) and enrollar_cobre_auto (526-587).

Each loop is modelled as a fuel-indexed function over a trace of per-iteration
input samples (encoder-count snapshot, tension reading, operator-stop switch).
The result is the run outcome together with the final state of the MOTOR_EN
output line (true = motor enabled).  Fuel exhaustion returns Running with the
motor still on, mirroring a loop that has not yet terminated.  C float
arithmetic is idealised over ℚ, and sqrt with the C rounding (int)(x + 0.5)
is captured exactly by an integer characterisation.
-/

set_option maxRecDepth 100000

/-- Input sample read by one iteration of a winding loop: the snapshot of the
volatile counter pulsos_encoder, the value returned by leer_fuerza (tension),
and whether gpio_get(ROT_SW) reads pressed (stop). -/
structure Sample where
  pulses : ℕ
  tension : ℤ
  stop : Bool
deriving DecidableEq

/-- Terminal outcome of a winding run.  Running is returned when the modelling
fuel runs out before the loop terminates. -/
inductive Outcome where
  | Completed
  | AbortedByOperator
  | AbortedByTension
  | Running
deriving DecidableEq

/-- Pin number of the optical encoder data line (Final_dig.c line 32). -/
def OPT_ENCODER_DT : ℕ := 15

/-- The literal 3.1416 used throughout Final_dig.c for π. -/
def approxPi : ℚ := 31416 / 10000

/-- PULSOS_POR_VUELTA, Final_dig.c line 48. -/
def PULSOS_POR_VUELTA : ℚ := 100

/-- DIAMETRO_TAMBOR_CM, Final_dig.c line 49. -/
def DIAMETRO_TAMBOR_CM : ℚ := 14 / 10

/-- CM_POR_VUELTA = 3.1416 * DIAMETRO_TAMBOR_CM, Final_dig.c line 50. -/
def CM_POR_VUELTA : ℚ := approxPi * DIAMETRO_TAMBOR_CM

/-- PULSOS_POR_CM = PULSOS_POR_VUELTA / CM_POR_VUELTA, Final_dig.c line 51. -/
def PULSOS_POR_CM : ℚ := PULSOS_POR_VUELTA / CM_POR_VUELTA

/-- PULSOS_POR_METRO = PULSOS_POR_CM * 100, Final_dig.c line 52. -/
def PULSOS_POR_METRO : ℚ := PULSOS_POR_CM * 100

/-- Target computation of enrollar_hasta, line 314:
int pulsos_deseados = metros_deseados * PULSOS_POR_METRO; the C conversion to
int truncates, which for non-negative metres is the floor. -/
def metresToPulses (metros : ℕ) : ℤ := ⌊(metros : ℚ) * PULSOS_POR_METRO⌋

/-- Progress display conversion, lines 222/330:
float metros_actuales = (float)pulsos / PULSOS_POR_METRO. -/
def pulsesToMetres (pulsos : ℤ) : ℚ := (pulsos : ℚ) / PULSOS_POR_METRO

/-- mu_0 = 4 * 3.1416e-7, Final_dig.c line 381. -/
def mu_0 : ℚ := 4 * (31416 / 10 ^ 11)

/-- radio = 0.014, Final_dig.c line 382. -/
def radio : ℚ := 14 / 1000

/-- altura = 0.028, Final_dig.c line 386. -/
def altura : ℚ := 28 / 1000

/-- A = 3.1416 * radio * radio, Final_dig.c line 387. -/
def A_bobina : ℚ := approxPi * radio * radio

/-- The radicand (L * altura) / (mu_0 * A) with L = milihenrios / 1000,
Final_dig.c lines 389-391; the square of the ideal (real-valued) N. -/
def turnsSquared (milihenrios : ℕ) : ℚ :=
  ((milihenrios : ℚ) / 1000 * altura) / (mu_0 * A_bobina)

/-- Exact integer value of (int)(sqrt q + 0.5) for a rational q ≥ 0.
Using that an integer n satisfies n ≤ sqrt q + 1/2 iff 2*n - 1 ≤ sqrt (4*q),
the round-half-up of sqrt q equals (Nat.sqrt ⌊4*q⌋ + 1) / 2; the lemmas
roundHalfUpSqrt_lb and roundHalfUpSqrt_ub below verify this bracketing. -/
def roundHalfUpSqrt (q : ℚ) : ℕ := (Nat.sqrt (⌊4 * q⌋).toNat + 1) / 2

/-- calcular_vueltas_para_mH, Final_dig.c lines 380-394:
return (int)(sqrt((L * altura) / (mu_0 * A)) + 0.5). -/
def calcular_vueltas_para_mH (milihenrios : ℕ) : ℕ :=
  roundHalfUpSqrt (turnsSquared milihenrios)

/-- mover_servo_oscilando, Final_dig.c lines 168-177, as the list of angles one
call passes to set_servo_angle: the first for loop counts angle from min_angle
up to max_angle inclusive, the second counts from max_angle down to min_angle
inclusive, sleeping pause_ms after each command (timing not modelled). -/
def mover_servo_oscilando (min_angle max_angle : ℤ) : List ℤ :=
  (List.range (max_angle - min_angle + 1).toNat).map (fun n : ℕ => min_angle + (n : ℤ)) ++
  (List.range (max_angle - min_angle + 1).toNat).map (fun n : ℕ => max_angle - (n : ℤ))

/-- The k-th angle commanded when the winding loop calls mover_servo_oscilando
repeatedly: the per-call command list repeated cyclically. -/
def servoStream (min_angle max_angle : ℤ) (k : ℕ) : ℤ :=
  (mover_servo_oscilando min_angle max_angle).getD
    (k % (mover_servo_oscilando min_angle max_angle).length) 0

/-- leer_fuerza, Final_dig.c lines 187-191: the simulated load-cell read,
always 0. -/
def leer_fuerza : ℤ := 0

/-- A GPIO interrupt event as delivered to gpio_callback: the pin that fired
and whether the event mask contains GPIO_IRQ_EDGE_FALL. -/
structure GpioEvent where
  gpio : ℕ
  edgeFall : Bool
deriving DecidableEq

/-- gpio_callback, Final_dig.c lines 91-95: increments pulsos_encoder exactly
when the event is a falling edge on OPT_ENCODER_DT; its only effect. -/
def gpio_callback (e : GpioEvent) (pulsos_encoder : ℕ) : ℕ :=
  if e.gpio = OPT_ENCODER_DT ∧ e.edgeFall = true then pulsos_encoder + 1 else pulsos_encoder

/-- Value of pulsos_encoder after a list of interrupt events, starting from the
reset pulsos_encoder = 0 performed at the beginning of every winding run
(lines 203, 315, 454, 528). -/
def pulsosAfter (evs : List GpioEvent) : ℕ :=
  evs.foldl (fun p e => gpio_callback e p) 0

/-- Events delivered during iterations 0..i-1 of a run, given the per-iteration
event schedule. -/
def eventsUpTo (sched : ℕ → List GpioEvent) : ℕ → List GpioEvent
  | 0 => []
  | i + 1 => eventsUpTo sched i ++ sched i

/-- Counter value the control loop observes at iteration i of a run whose
interrupt events follow sched, starting from the run-entry reset. -/
def counterTrace (sched : ℕ → List GpioEvent) (i : ℕ) : ℕ :=
  pulsosAfter (eventsUpTo sched i)

/-- Loop of enrollar_hasta, Final_dig.c lines 325-350.  Per iteration, in
source order: the while head compares pulsos_encoder < pulsos_deseados (exit ⇒
motor off, Completed, lines 352-360); the display throttle updates
ultimo_pulso_mostrado on a 100-pulse advance (327-338, display only); the servo
oscillates (340); leer_fuerza() > 3000 aborts with the motor disabled (342-349).
This loop polls no operator-stop input. -/
def enrollar_hasta_loop (target : ℤ) (tr : ℕ → Sample) : ℕ → ℕ → ℤ → Outcome × Bool
  | 0, _, _ => (Outcome.Running, true)
  | fuel + 1, i, ultimo =>
    if ((tr i).pulses : ℤ) < target then
      if (tr i).tension > 3000 then (Outcome.AbortedByTension, false)
      else
        enrollar_hasta_loop target tr fuel (i + 1)
          (if ((tr i).pulses : ℤ) - ultimo ≥ 100 then ((tr i).pulses : ℤ) else ultimo)
    else (Outcome.Completed, false)

/-- enrollar_hasta, Final_dig.c lines 313-361: resets the counter, computes the
pulse target from the requested metres and runs the loop with the display
threshold starting at 0. -/
def enrollar_hasta (metros : ℕ) (tr : ℕ → Sample) (fuel : ℕ) : Outcome × Bool :=
  enrollar_hasta_loop (metresToPulses metros) tr fuel 0 0

/-- Loop of enrollar_auto, Final_dig.c lines 215-256.  Per iteration: display
throttle on a 100-pulse advance (219-230, display only); servo (232); tension
abort (234-241); operator stop via gpio_get(ROT_SW) low (243-255) disables the
motor and ends the run. -/
def enrollar_auto_loop (tr : ℕ → Sample) : ℕ → ℕ → ℤ → Outcome × Bool
  | 0, _, _ => (Outcome.Running, true)
  | fuel + 1, i, ultimo =>
    if (tr i).tension > 3000 then (Outcome.AbortedByTension, false)
    else if (tr i).stop then (Outcome.AbortedByOperator, false)
    else
      enrollar_auto_loop tr fuel (i + 1)
        (if ((tr i).pulses : ℤ) - ultimo ≥ 100 then ((tr i).pulses : ℤ) else ultimo)

/-- enrollar_auto, Final_dig.c lines 202-257. -/
def enrollar_auto (tr : ℕ → Sample) (fuel : ℕ) : Outcome × Bool :=
  enrollar_auto_loop tr fuel 0 0

/-- Loop of enrollar_cobre_manual, Final_dig.c lines 468-505.  Per iteration:
while head compares pulsos_encoder < vueltas_objetivo (exit ⇒ motor off,
Completed, lines 507-514); display throttle on a 20-pulse advance (470-480);
servo (482); tension abort (484-491); operator stop (493-504). -/
def enrollar_cobre_manual_loop (target : ℕ) (tr : ℕ → Sample) : ℕ → ℕ → ℤ → Outcome × Bool
  | 0, _, _ => (Outcome.Running, true)
  | fuel + 1, i, ultima =>
    if (tr i).pulses < target then
      if (tr i).tension > 3000 then (Outcome.AbortedByTension, false)
      else if (tr i).stop then (Outcome.AbortedByOperator, false)
      else
        enrollar_cobre_manual_loop target tr fuel (i + 1)
          (if ((tr i).pulses : ℤ) - ultima ≥ 20 then ((tr i).pulses : ℤ) else ultima)
    else (Outcome.Completed, false)

/-- enrollar_cobre_manual, Final_dig.c lines 452-515: target =
calcular_vueltas_para_mH(milihenrios). -/
def enrollar_cobre_manual (milihenrios : ℕ) (tr : ℕ → Sample) (fuel : ℕ) : Outcome × Bool :=
  enrollar_cobre_manual_loop (calcular_vueltas_para_mH milihenrios) tr fuel 0 0

/-- Loop of enrollar_cobre_auto, Final_dig.c lines 542-579, with its target
vueltas_objetivo = calcular_vueltas_para_mH(1000) from line 527.  Same shape
as the copper-manual loop: while head on the target, 20-pulse display
throttle (544-554), servo (556), tension abort (558-565), operator stop
(567-578). -/
def enrollar_cobre_auto_loop (tr : ℕ → Sample) : ℕ → ℕ → ℤ → Outcome × Bool
  | 0, _, _ => (Outcome.Running, true)
  | fuel + 1, i, ultima =>
    if (tr i).pulses < calcular_vueltas_para_mH 1000 then
      if (tr i).tension > 3000 then (Outcome.AbortedByTension, false)
      else if (tr i).stop then (Outcome.AbortedByOperator, false)
      else
        enrollar_cobre_auto_loop tr fuel (i + 1)
          (if ((tr i).pulses : ℤ) - ultima ≥ 20 then ((tr i).pulses : ℤ) else ultima)
    else (Outcome.Completed, false)

/-- enrollar_cobre_auto, Final_dig.c lines 526-587. -/
def enrollar_cobre_auto (tr : ℕ → Sample) (fuel : ℕ) : Outcome × Bool :=
  enrollar_cobre_auto_loop tr fuel 0 0

/-- Trace of a run wired to the actual leer_fuerza stub: every iteration's
tension sample is the value the reference implementation returns. -/
def actualTrace (p : ℕ → ℕ) (st : ℕ → Bool) : ℕ → Sample :=
  fun i => ⟨p i, leer_fuerza, st i⟩

/-- PULSOS_POR_METRO is positive. -/
theorem ppm_pos : 0 < PULSOS_POR_METRO := by
  norm_num [PULSOS_POR_METRO, PULSOS_POR_CM, CM_POR_VUELTA, approxPi, PULSOS_POR_VUELTA,
    DIAMETRO_TAMBOR_CM]

/-- One pulse is less than 1/2273 of a metre. -/
theorem ppm_inv_lt : 1 / PULSOS_POR_METRO < 1 / 2273 := by
  norm_num [PULSOS_POR_METRO, PULSOS_POR_CM, CM_POR_VUELTA, approxPi, PULSOS_POR_VUELTA,
    DIAMETRO_TAMBOR_CM]

/-- Concrete target for one metre of thread. -/
theorem metresToPulses_one : metresToPulses 1 = 2273 := by
  norm_num [metresToPulses, PULSOS_POR_METRO, PULSOS_POR_CM, CM_POR_VUELTA, approxPi,
    PULSOS_POR_VUELTA, DIAMETRO_TAMBOR_CM]

/-- roundHalfUpSqrt is monotone. -/
theorem roundHalfUpSqrt_mono {q q' : ℚ} (h : q ≤ q') :
    roundHalfUpSqrt q ≤ roundHalfUpSqrt q' := by
  unfold roundHalfUpSqrt
  have h1 : ⌊4 * q⌋ ≤ ⌊4 * q'⌋ := Int.floor_le_floor (by linarith)
  exact Nat.div_le_div_right (Nat.succ_le_succ (Nat.sqrt_le_sqrt (Int.toNat_le_toNat h1)))

/-- roundHalfUpSqrt is at least one as soon as the radicand reaches 1/4. -/
theorem roundHalfUpSqrt_pos {q : ℚ} (h : 1 ≤ 4 * q) : 1 ≤ roundHalfUpSqrt q := by
  unfold roundHalfUpSqrt
  have h1 : (1 : ℤ) ≤ ⌊4 * q⌋ := by
    have := Int.le_floor.mpr (show ((1 : ℤ) : ℚ) ≤ 4 * q by exact_mod_cast h)
    simpa using this
  have h3 : 1 ≤ Nat.sqrt (⌊4 * q⌋).toNat := Nat.le_sqrt.mpr (by omega)
  omega

/-- Lower bracketing: for n = roundHalfUpSqrt q with n ≥ 1, (2n-1)^2 ≤ 4q, i.e.
sqrt q ≥ n - 1/2, so (int)(sqrt q + 0.5) does not round below n. -/
theorem roundHalfUpSqrt_lb {q : ℚ} (hq : 0 ≤ q) (hn : 1 ≤ roundHalfUpSqrt q) :
    (2 * (roundHalfUpSqrt q : ℚ) - 1) ^ 2 ≤ 4 * q := by
  set m := (⌊4 * q⌋).toNat with hm
  set s := Nat.sqrt m with hs
  have hsq : s * s ≤ m := Nat.sqrt_le m
  have hmq : (m : ℚ) ≤ 4 * q := by
    have h0 : (0 : ℤ) ≤ ⌊4 * q⌋ := Int.floor_nonneg.mpr (by linarith)
    have heq : ((⌊4 * q⌋).toNat : ℤ) = ⌊4 * q⌋ := Int.toNat_of_nonneg h0
    calc (m : ℚ) = ((⌊4 * q⌋ : ℤ) : ℚ) := by exact_mod_cast congrArg (fun z : ℤ => (z : ℚ)) heq
      _ ≤ 4 * q := Int.floor_le _
  set n := roundHalfUpSqrt q with hnd
  have hns : 2 * n - 1 ≤ s := by
    have : n = (s + 1) / 2 := rfl
    omega
  have cast_le : ((2 * n - 1) * (2 * n - 1) : ℕ) ≤ (m : ℕ) :=
    le_trans (Nat.mul_le_mul hns hns) hsq
  have hle : (((2 * n - 1) * (2 * n - 1) : ℕ) : ℚ) ≤ (m : ℚ) := by exact_mod_cast cast_le
  have hcast : (((2 * n - 1) * (2 * n - 1) : ℕ) : ℚ) = (2 * (n : ℚ) - 1) ^ 2 := by
    have h1 : (1 : ℕ) ≤ 2 * n := by omega
    push_cast [h1]
    ring
  linarith [hcast ▸ hle]

/-- Upper bracketing: 4q < (2n+1)^2 for n = roundHalfUpSqrt q, i.e.
sqrt q < n + 1/2, so (int)(sqrt q + 0.5) does not round above n. -/
theorem roundHalfUpSqrt_ub {q : ℚ} (hq : 0 ≤ q) :
    4 * q < (2 * (roundHalfUpSqrt q : ℚ) + 1) ^ 2 := by
  set m := (⌊4 * q⌋).toNat with hm
  set s := Nat.sqrt m with hs
  have hlt : m < (s + 1) * (s + 1) := Nat.lt_succ_sqrt m
  have hqm : 4 * q < (m : ℚ) + 1 := by
    have h0 : (0 : ℤ) ≤ ⌊4 * q⌋ := Int.floor_nonneg.mpr (by linarith)
    have heq : ((⌊4 * q⌋).toNat : ℤ) = ⌊4 * q⌋ := Int.toNat_of_nonneg h0
    calc 4 * q < (⌊4 * q⌋ : ℚ) + 1 := Int.lt_floor_add_one (4 * q)
      _ = (m : ℚ) + 1 := by exact_mod_cast congrArg (fun z : ℤ => ((z : ℚ) + 1)) heq.symm
  set n := roundHalfUpSqrt q with hnd
  have hsn : s + 1 ≤ 2 * n + 1 := by
    have : n = (s + 1) / 2 := rfl
    omega
  have cast_lt : (m : ℕ) < ((2 * n + 1) * (2 * n + 1) : ℕ) :=
    lt_of_lt_of_le hlt (Nat.mul_le_mul hsn hsn)
  have hmint : (m : ℚ) + 1 ≤ (((2 * n + 1) * (2 * n + 1) : ℕ) : ℚ) := by exact_mod_cast cast_lt
  have hcast : (((2 * n + 1) * (2 * n + 1) : ℕ) : ℚ) = (2 * (n : ℚ) + 1) ^ 2 := by
    push_cast
    ring
  calc 4 * q < (m : ℚ) + 1 := hqm
    _ ≤ (((2 * n + 1) * (2 * n + 1) : ℕ) : ℚ) := hmint
    _ = (2 * (n : ℚ) + 1) ^ 2 := hcast

/-- The radicand grows with the requested inductance. -/
theorem turnsSquared_mono {a b : ℕ} (h : a ≤ b) : turnsSquared a ≤ turnsSquared b := by
  unfold turnsSquared
  have hden : 0 < mu_0 * A_bobina := by
    norm_num [mu_0, A_bobina, approxPi, radio]
  have hnum : (a : ℚ) / 1000 * altura ≤ (b : ℚ) / 1000 * altura := by
    have hab : (a : ℚ) ≤ (b : ℚ) := by exact_mod_cast h
    have haltura : (0 : ℚ) < altura := by norm_num [altura]
    nlinarith
  exact (div_le_div_iff_of_pos_right hden).mpr hnum

/-- The radicand is non-negative. -/
theorem turnsSquared_nonneg (mH : ℕ) : 0 ≤ turnsSquared mH := by
  unfold turnsSquared mu_0 A_bobina approxPi radio altura
  positivity

/-- Concrete bound at the bottom of the selectable range. -/
theorem turnsSquared_ten : 1 ≤ 4 * turnsSquared 10 := by
  norm_num [turnsSquared, mu_0, altura, A_bobina, approxPi, radio]

/-- The copper-winding turn target is positive for every inductance of at least
10 mH; in particular the 1-Henry target of the copper-auto mode is positive. -/
theorem calcular_pos {mH : ℕ} (h : 10 ≤ mH) : 1 ≤ calcular_vueltas_para_mH mH := by
  unfold calcular_vueltas_para_mH
  exact roundHalfUpSqrt_pos (le_trans turnsSquared_ten (by linarith [turnsSquared_mono h]))

/-- Length of the command list of one servo call. -/
theorem sweep_len (mn mx : ℤ) :
    (mover_servo_oscilando mn mx).length = 2 * (mx - mn + 1).toNat := by
  rw [mover_servo_oscilando, List.length_append, List.length_map, List.length_map,
    List.length_range]
  omega

/-- Every angle one servo call commands lies between the two bounds. -/
theorem mem_sweep {mn mx x : ℤ} (h : mn ≤ mx) (hx : x ∈ mover_servo_oscilando mn mx) :
    mn ≤ x ∧ x ≤ mx := by
  rcases List.mem_append.mp hx with hx' | hx' <;>
    · obtain ⟨k, hk, rfl⟩ := List.mem_map.mp hx'
      rw [List.mem_range] at hk
      omega

/-- Every angle of the cyclic command stream lies between the two bounds. -/
theorem stream_bounds (mn mx : ℤ) (h : mn ≤ mx) (k : ℕ) :
    mn ≤ servoStream mn mx k ∧ servoStream mn mx k ≤ mx := by
  have hlen : 0 < (mover_servo_oscilando mn mx).length := by
    rw [sweep_len mn mx]; omega
  have hidx : k % (mover_servo_oscilando mn mx).length < (mover_servo_oscilando mn mx).length :=
    Nat.mod_lt _ hlen
  have hmem : servoStream mn mx k ∈ mover_servo_oscilando mn mx := by
    rw [servoStream, List.getD_eq_getElem _ _ hidx]
    exact List.getElem_mem hidx
  exact mem_sweep h hmem

/-- Element formula for the rising half of one servo call. -/
theorem sweep_up_elem (mn mx : ℤ) (h : mn ≤ mx) (k : ℕ) (hk : (k : ℤ) ≤ mx - mn) :
    (mover_servo_oscilando mn mx).getD k 0 = mn + k := by
  have h1 : k < ((List.range (mx - mn + 1).toNat).map (fun n : ℕ => mn + (n : ℤ))).length := by
    rw [List.length_map, List.length_range]; omega
  have h2 : k < (mover_servo_oscilando mn mx).length := by
    rw [sweep_len mn mx]; omega
  rw [mover_servo_oscilando, List.getD_eq_getElem _ _ (by rw [← mover_servo_oscilando]; exact h2),
    List.getElem_append_left h1, List.getElem_map]
  congr 1
  rw [List.getElem_range]

/-- Element formula for the falling half of one servo call. -/
theorem sweep_down_elem (mn mx : ℤ) (h : mn ≤ mx) (k : ℕ) (hk : (k : ℤ) ≤ mx - mn) :
    (mover_servo_oscilando mn mx).getD ((mx - mn + 1).toNat + k) 0 = mx - k := by
  have hlen1 : ((List.range (mx - mn + 1).toNat).map (fun n : ℕ => mn + (n : ℤ))).length
      = (mx - mn + 1).toNat := by
    rw [List.length_map, List.length_range]
  have h2 : (mx - mn + 1).toNat + k < (mover_servo_oscilando mn mx).length := by
    rw [sweep_len mn mx]; omega
  rw [mover_servo_oscilando,
    List.getD_eq_getElem _ _ (by rw [← mover_servo_oscilando]; exact h2),
    List.getElem_append_right (by rw [hlen1]; omega)]
  simp only [hlen1, List.getElem_map, List.getElem_range]
  congr 1
  omega

/-- The counter after a list of events counts exactly the qualifying falling
edges, whatever the starting value. -/
theorem gpio_foldl_eq (evs : List GpioEvent) : ∀ p : ℕ,
    evs.foldl (fun a e => gpio_callback e a) p
      = p + (evs.filter fun e => e.gpio == OPT_ENCODER_DT && e.edgeFall).length := by
  induction evs with
  | nil => intro p; simp
  | cons e l ih =>
    intro p
    rw [List.foldl_cons, ih, List.filter_cons]
    cases hval : (e.gpio == OPT_ENCODER_DT && e.edgeFall) with
    | true =>
      have hprop : e.gpio = OPT_ENCODER_DT ∧ e.edgeFall = true := by
        simpa [Bool.and_eq_true, beq_iff_eq] using hval
      simp only [hval, if_true, List.length_cons, gpio_callback, if_pos hprop]
      omega
    | false =>
      have hprop : ¬ (e.gpio = OPT_ENCODER_DT ∧ e.edgeFall = true) := by
        intro hc
        simp [hc.1, hc.2] at hval
      simp only [hval, Bool.false_eq_true, if_false, gpio_callback, if_neg hprop]

/-- pulsosAfter splits over concatenation of event lists. -/
theorem pulsosAfter_append (a b : List GpioEvent) :
    pulsosAfter (a ++ b) = pulsosAfter a + pulsosAfter b := by
  rw [pulsosAfter, pulsosAfter, pulsosAfter, gpio_foldl_eq, gpio_foldl_eq, gpio_foldl_eq,
    List.filter_append, List.length_append]
  omega

/-- The thread-manual loop never reads the operator-stop input: its result is
unchanged if every stop sample is replaced by false. -/
theorem hasta_stop_irrelevant (target : ℤ) (tr : ℕ → Sample) : ∀ (fuel i : ℕ) (u : ℤ),
    enrollar_hasta_loop target tr fuel i u
      = enrollar_hasta_loop target (fun j => ⟨(tr j).pulses, (tr j).tension, false⟩) fuel i u := by
  intro fuel
  induction fuel with
  | zero => intro i u; rfl
  | succ fuel ih =>
    intro i u
    rw [enrollar_hasta_loop, enrollar_hasta_loop]
    dsimp only
    split_ifs <;> first | rfl | exact ih (i + 1) _

/-- Completion lemma for the thread-manual loop: if every iteration before the
n-th continues (target not reached, tension within limits) and the n-th sample
reaches the target, the loop returns Completed with the motor off, for any
remaining fuel and any display-threshold state. -/
theorem hasta_completes (target : ℤ) (tr : ℕ → Sample) : ∀ (n i : ℕ) (u : ℤ),
    (∀ j, j < n → ((tr (i + j)).pulses : ℤ) < target ∧ (tr (i + j)).tension ≤ 3000) →
    target ≤ ((tr (i + n)).pulses : ℤ) →
    ∀ fuel, enrollar_hasta_loop target tr (n + 1 + fuel) i u = (Outcome.Completed, false) := by
  intro n
  induction n with
  | zero =>
    intro i u _ hT fuel
    have hfuel : 0 + 1 + fuel = fuel + 1 := by omega
    rw [hfuel, enrollar_hasta_loop, if_neg (by simpa using hT)]
  | succ n ih =>
    intro i u h hT fuel
    have h0 := h 0 (by omega)
    simp only [Nat.add_zero] at h0
    have hstep : n + 1 + 1 + fuel = (n + 1 + fuel) + 1 := by omega
    rw [hstep, enrollar_hasta_loop, if_pos h0.1, if_neg (by omega)]
    apply ih (i + 1)
    · intro j hj
      have hjj := h (j + 1) (by omega)
      simpa [Nat.add_assoc, Nat.add_comm 1 j] using hjj
    · have heq : i + 1 + n = i + (n + 1) := by omega
      rw [heq]
      exact hT

/-- Running lemma for the thread-manual loop: as long as every sampled
iteration continues, the loop is still running with the motor on. -/
theorem hasta_running (target : ℤ) (tr : ℕ → Sample) : ∀ (m i : ℕ) (u : ℤ),
    (∀ j, j < m → ((tr (i + j)).pulses : ℤ) < target ∧ (tr (i + j)).tension ≤ 3000) →
    enrollar_hasta_loop target tr m i u = (Outcome.Running, true) := by
  intro m
  induction m with
  | zero => intro i u _; rw [enrollar_hasta_loop]
  | succ m ih =>
    intro i u h
    have h0 := h 0 (by omega)
    simp only [Nat.add_zero] at h0
    rw [enrollar_hasta_loop, if_pos h0.1, if_neg (by omega)]
    apply ih (i + 1)
    intro j hj
    have hjj := h (j + 1) (by omega)
    simpa [Nat.add_assoc, Nat.add_comm 1 j] using hjj

/-- Completion lemma for the copper-manual loop, with the additional continue
condition that the operator-stop input is not asserted. -/
theorem cobre_completes (target : ℕ) (tr : ℕ → Sample) : ∀ (n i : ℕ) (u : ℤ),
    (∀ j, j < n → (tr (i + j)).pulses < target ∧ (tr (i + j)).tension ≤ 3000 ∧
      (tr (i + j)).stop = false) →
    target ≤ (tr (i + n)).pulses →
    ∀ fuel, enrollar_cobre_manual_loop target tr (n + 1 + fuel) i u
      = (Outcome.Completed, false) := by
  intro n
  induction n with
  | zero =>
    intro i u _ hT fuel
    have hfuel : 0 + 1 + fuel = fuel + 1 := by omega
    rw [hfuel, enrollar_cobre_manual_loop, if_neg (by simpa using hT)]
  | succ n ih =>
    intro i u h hT fuel
    have h0 := h 0 (by omega)
    simp only [Nat.add_zero] at h0
    have hstep : n + 1 + 1 + fuel = (n + 1 + fuel) + 1 := by omega
    rw [hstep, enrollar_cobre_manual_loop, if_pos h0.1, if_neg (by omega),
      if_neg (by simp [h0.2.2])]
    apply ih (i + 1)
    · intro j hj
      have hjj := h (j + 1) (by omega)
      simpa [Nat.add_assoc, Nat.add_comm 1 j] using hjj
    · have heq : i + 1 + n = i + (n + 1) := by omega
      rw [heq]
      exact hT

/-- Running lemma for the copper-manual loop. -/
theorem cobre_running (target : ℕ) (tr : ℕ → Sample) : ∀ (m i : ℕ) (u : ℤ),
    (∀ j, j < m → (tr (i + j)).pulses < target ∧ (tr (i + j)).tension ≤ 3000 ∧
      (tr (i + j)).stop = false) →
    enrollar_cobre_manual_loop target tr m i u = (Outcome.Running, true) := by
  intro m
  induction m with
  | zero => intro i u _; rw [enrollar_cobre_manual_loop]
  | succ m ih =>
    intro i u h
    have h0 := h 0 (by omega)
    simp only [Nat.add_zero] at h0
    rw [enrollar_cobre_manual_loop, if_pos h0.1, if_neg (by omega), if_neg (by simp [h0.2.2])]
    apply ih (i + 1)
    intro j hj
    have hjj := h (j + 1) (by omega)
    simpa [Nat.add_assoc, Nat.add_comm 1 j] using hjj

/-- The copper-auto loop is the copper-manual loop at the 1000 mH target. -/
theorem cobre_auto_loop_eq (tr : ℕ → Sample) : ∀ (fuel i : ℕ) (u : ℤ),
    enrollar_cobre_auto_loop tr fuel i u
      = enrollar_cobre_manual_loop (calcular_vueltas_para_mH 1000) tr fuel i u := by
  intro fuel
  induction fuel with
  | zero => intro i u; rfl
  | succ fuel ih =>
    intro i u
    rw [enrollar_cobre_auto_loop, enrollar_cobre_manual_loop]
    split_ifs <;> first | rfl | exact ih (i + 1) _

/-- With the tension wired to the leer_fuerza stub, the thread-manual loop
never aborts on tension. -/
theorem hasta_actual_no_tension (p : ℕ → ℕ) (st : ℕ → Bool) (target : ℤ) :
    ∀ (fuel i : ℕ) (u : ℤ),
    (enrollar_hasta_loop target (actualTrace p st) fuel i u).1 ≠ Outcome.AbortedByTension := by
  intro fuel
  induction fuel with
  | zero => intro i u; rw [enrollar_hasta_loop]; decide
  | succ fuel ih =>
    intro i u
    rw [enrollar_hasta_loop]
    have hten : ¬ ((actualTrace p st i).tension > 3000) := by
      simp [actualTrace, leer_fuerza]
    rw [if_neg hten]
    split_ifs <;> first | exact ih (i + 1) _ | decide

/-- With the tension wired to the leer_fuerza stub, the thread-auto loop never
aborts on tension. -/
theorem auto_actual_no_tension (p : ℕ → ℕ) (st : ℕ → Bool) :
    ∀ (fuel i : ℕ) (u : ℤ),
    (enrollar_auto_loop (actualTrace p st) fuel i u).1 ≠ Outcome.AbortedByTension := by
  intro fuel
  induction fuel with
  | zero => intro i u; rw [enrollar_auto_loop]; decide
  | succ fuel ih =>
    intro i u
    rw [enrollar_auto_loop]
    have hten : ¬ ((actualTrace p st i).tension > 3000) := by
      simp [actualTrace, leer_fuerza]
    rw [if_neg hten]
    split_ifs <;> first | exact ih (i + 1) _ | decide

/-- With the tension wired to the leer_fuerza stub, the copper-manual loop
never aborts on tension. -/
theorem cobre_actual_no_tension (p : ℕ → ℕ) (st : ℕ → Bool) (target : ℕ) :
    ∀ (fuel i : ℕ) (u : ℤ),
    (enrollar_cobre_manual_loop target (actualTrace p st) fuel i u).1
      ≠ Outcome.AbortedByTension := by
  intro fuel
  induction fuel with
  | zero => intro i u; rw [enrollar_cobre_manual_loop]; decide
  | succ fuel ih =>
    intro i u
    rw [enrollar_cobre_manual_loop]
    have hten : ¬ ((actualTrace p st i).tension > 3000) := by
      simp [actualTrace, leer_fuerza]
    rw [if_neg hten]
    split_ifs <;> first | exact ih (i + 1) _ | decide

/-- C1: in every winding mode (thread-manual, thread-auto, copper-manual,
copper-auto), an iteration whose sampled tension reading is strictly greater
than 3000 ends the run in that same iteration with outcome AbortedByTension
and the motor-enable output false before the function returns.  In the target
modes the body that samples the tension runs exactly when the loop head sees
the target not yet reached, which is the stated precondition. -/
theorem c1_tension_abort (tr : ℕ → Sample) (i fuel : ℕ) (u : ℤ)
    (htension : (tr i).tension > 3000) :
    (∀ target : ℤ, ((tr i).pulses : ℤ) < target →
      enrollar_hasta_loop target tr (fuel + 1) i u = (Outcome.AbortedByTension, false))
    ∧ enrollar_auto_loop tr (fuel + 1) i u = (Outcome.AbortedByTension, false)
    ∧ (∀ target : ℕ, (tr i).pulses < target →
      enrollar_cobre_manual_loop target tr (fuel + 1) i u = (Outcome.AbortedByTension, false))
    ∧ ((tr i).pulses < calcular_vueltas_para_mH 1000 →
      enrollar_cobre_auto_loop tr (fuel + 1) i u = (Outcome.AbortedByTension, false)) := by
  refine ⟨fun target hp => ?_, ?_, fun target hp => ?_, fun hp => ?_⟩
  · rw [enrollar_hasta_loop, if_pos hp, if_pos htension]
  · rw [enrollar_auto_loop, if_pos htension]
  · rw [enrollar_cobre_manual_loop, if_pos hp, if_pos htension]
  · rw [enrollar_cobre_auto_loop, if_pos hp, if_pos htension]

/-- Witness for c1_tension_abort at a concrete over-threshold reading. -/
theorem c1_tension_abort_witness :
    ((3001 : ℤ) > 3000)
    ∧ enrollar_hasta_loop 1 (fun _ => ⟨0, 3001, false⟩) 1 0 0 = (Outcome.AbortedByTension, false)
    ∧ enrollar_auto_loop (fun _ => ⟨0, 3001, false⟩) 1 0 0 = (Outcome.AbortedByTension, false)
    ∧ enrollar_cobre_manual_loop 1 (fun _ => ⟨0, 3001, false⟩) 1 0 0
      = (Outcome.AbortedByTension, false)
    ∧ enrollar_cobre_auto_loop (fun _ => ⟨0, 3001, false⟩) 1 0 0
      = (Outcome.AbortedByTension, false) := by
  have H := c1_tension_abort (fun _ => ⟨0, 3001, false⟩) 0 0 0 (by decide)
  exact ⟨by decide, H.1 1 (by decide), H.2.1, H.2.2.1 1 (by decide),
    H.2.2.2 (calcular_pos (by decide))⟩

/-- C2 counterexample: the thread-manual run (enrollar_hasta) ignores the
operator-stop input.  With the stop input asserted in every iteration, tension
zero and no encoder pulses, a one-metre run is still Running with the motor on
after two full iterations, instead of AbortedByOperator within one. -/
theorem c2_thread_manual_stop_cex :
    metresToPulses 1 = 2273
    ∧ enrollar_hasta 1 (fun _ => ⟨0, 0, true⟩) 2 = (Outcome.Running, true) := by
  refine ⟨metresToPulses_one, ?_⟩
  show enrollar_hasta_loop (metresToPulses 1) (fun _ => ⟨0, 0, true⟩) 2 0 0 = _
  rw [metresToPulses_one]
  decide

/-- C2 (amended): the operator stop is honoured by thread-auto, copper-manual
and copper-auto: an iteration sampling stop asserted (with tension within the
limit and, in the copper modes, the target not yet reached) ends the run in
that iteration with AbortedByOperator and the motor disabled.  Thread-manual
(enrollar_hasta) does not poll the stop input at all: its run is unchanged when
every stop sample is replaced by false. -/
theorem c2_operator_stop (tr : ℕ → Sample) (i fuel : ℕ) (u : ℤ)
    (ht : (tr i).tension ≤ 3000) (hs : (tr i).stop = true) :
    enrollar_auto_loop tr (fuel + 1) i u = (Outcome.AbortedByOperator, false)
    ∧ (∀ target : ℕ, (tr i).pulses < target →
      enrollar_cobre_manual_loop target tr (fuel + 1) i u = (Outcome.AbortedByOperator, false))
    ∧ ((tr i).pulses < calcular_vueltas_para_mH 1000 →
      enrollar_cobre_auto_loop tr (fuel + 1) i u = (Outcome.AbortedByOperator, false))
    ∧ (∀ (target : ℤ) (fuelq iq : ℕ) (uq : ℤ),
      enrollar_hasta_loop target tr fuelq iq uq
        = enrollar_hasta_loop target (fun j => ⟨(tr j).pulses, (tr j).tension, false⟩)
            fuelq iq uq) := by
  refine ⟨?_, fun target hp => ?_, fun hp => ?_,
    fun target fuelq iq uq => hasta_stop_irrelevant target tr fuelq iq uq⟩
  · rw [enrollar_auto_loop, if_neg (by omega), if_pos hs]
  · rw [enrollar_cobre_manual_loop, if_pos hp, if_neg (by omega), if_pos hs]
  · rw [enrollar_cobre_auto_loop, if_pos hp, if_neg (by omega), if_pos hs]

/-- Witness for c2_operator_stop at a concrete stop-asserted sample. -/
theorem c2_operator_stop_witness :
    ((0 : ℤ) ≤ 3000)
    ∧ enrollar_auto_loop (fun _ => ⟨0, 0, true⟩) 1 0 0 = (Outcome.AbortedByOperator, false)
    ∧ enrollar_cobre_manual_loop 1 (fun _ => ⟨0, 0, true⟩) 1 0 0
      = (Outcome.AbortedByOperator, false)
    ∧ enrollar_cobre_auto_loop (fun _ => ⟨0, 0, true⟩) 1 0 0
      = (Outcome.AbortedByOperator, false) := by
  have H := c2_operator_stop (fun _ => ⟨0, 0, true⟩) 0 0 0 (by decide) (by decide)
  exact ⟨by decide, H.1, H.2.1 1 (by decide), H.2.2.1 (calcular_pos (by decide))⟩

/-- C3 counterexample: one call of mover_servo_oscilando with the reference
bounds 50..130 commands 162 angles, starting at the minimum, reaching the
maximum at position 80 and ending back at the minimum: a single call performs
a complete sweep rather than advancing the position by one unit of angle. -/
theorem c3_full_sweep_cex :
    (mover_servo_oscilando 50 130).length = 162
    ∧ (mover_servo_oscilando 50 130).getD 0 0 = 50
    ∧ (mover_servo_oscilando 50 130).getD 80 0 = 130
    ∧ (mover_servo_oscilando 50 130).getLast? = some 50 := by decide

/-- C3 (amended): each call of mover_servo_oscilando performs one complete
sweep: it commands every angle from min_angle up to max_angle and then from
max_angle back down to min_angle, one unit per inner step with a sleep of
pause_ms after each command, so the winding loop's stop and target checks
interleave once per full sweep rather than once per angle step. -/
theorem c3_sweep_per_call (mn mx : ℤ) (h : mn ≤ mx) :
    (mover_servo_oscilando mn mx).length = 2 * (mx - mn + 1).toNat
    ∧ (∀ k : ℕ, (k : ℤ) ≤ mx - mn → (mover_servo_oscilando mn mx).getD k 0 = mn + k)
    ∧ (∀ k : ℕ, (k : ℤ) ≤ mx - mn →
      (mover_servo_oscilando mn mx).getD ((mx - mn + 1).toNat + k) 0 = mx - k) :=
  ⟨sweep_len mn mx, fun k hk => sweep_up_elem mn mx h k hk,
    fun k hk => sweep_down_elem mn mx h k hk⟩

/-- Witness for c3_sweep_per_call at the reference bounds. -/
theorem c3_sweep_per_call_witness :
    ((50 : ℤ) ≤ 130)
    ∧ (mover_servo_oscilando 50 130).length = 2 * ((130 : ℤ) - 50 + 1).toNat
    ∧ (mover_servo_oscilando 50 130).getD 3 0 = 50 + (3 : ℕ)
    ∧ (mover_servo_oscilando 50 130).getD (((130 : ℤ) - 50 + 1).toNat + 3) 0 = 130 - (3 : ℕ) := by
  have H := c3_sweep_per_call 50 130 (by decide)
  exact ⟨by decide, H.1, H.2.1 3 (by decide), H.2.2 3 (by decide)⟩

/-- C4: a manual-mode run (thread-manual with a pulse target, copper-manual
with a turns target) whose pulse-count samples reach the target at iteration n,
with all earlier iterations staying below the target and not aborting,
transitions to Completed exactly at the first check where progress reaches the
target, with the motor disabled: with more fuel it returns Completed and motor
off, and with fuel not past n it is still Running, independently of the
display-threshold state u, the modelled display-update cadence. -/
theorem c4_manual_completion (tr : ℕ → Sample) (n : ℕ) :
    (∀ target : ℤ,
      (∀ j, j < n → ((tr j).pulses : ℤ) < target ∧ (tr j).tension ≤ 3000) →
      target ≤ ((tr n).pulses : ℤ) →
      (∀ (fuel : ℕ) (u : ℤ),
        enrollar_hasta_loop target tr (n + 1 + fuel) 0 u = (Outcome.Completed, false))
      ∧ (∀ (m : ℕ) (u : ℤ), m ≤ n →
        enrollar_hasta_loop target tr m 0 u = (Outcome.Running, true)))
    ∧ (∀ target : ℕ,
      (∀ j, j < n → (tr j).pulses < target ∧ (tr j).tension ≤ 3000 ∧ (tr j).stop = false) →
      target ≤ (tr n).pulses →
      (∀ (fuel : ℕ) (u : ℤ),
        enrollar_cobre_manual_loop target tr (n + 1 + fuel) 0 u = (Outcome.Completed, false))
      ∧ (∀ (m : ℕ) (u : ℤ), m ≤ n →
        enrollar_cobre_manual_loop target tr m 0 u = (Outcome.Running, true))) := by
  constructor
  · intro target h hT
    constructor
    · intro fuel u
      exact hasta_completes target tr n 0 u (fun j hj => by simpa using h j hj)
        (by simpa using hT) fuel
    · intro m u hm
      exact hasta_running target tr m 0 u
        (fun j hj => by simpa using h j (lt_of_lt_of_le hj hm))
  · intro target h hT
    constructor
    · intro fuel u
      exact cobre_completes target tr n 0 u (fun j hj => by simpa using h j hj)
        (by simpa using hT) fuel
    · intro m u hm
      exact cobre_running target tr m 0 u
        (fun j hj => by simpa using h j (lt_of_lt_of_le hj hm))

/-- Witness for c4_manual_completion: one pulse per iteration, target 2,
reached at iteration 2. -/
theorem c4_manual_completion_witness :
    enrollar_hasta_loop 2 (fun j => ⟨j, 0, false⟩) 3 0 0 = (Outcome.Completed, false)
    ∧ enrollar_hasta_loop 2 (fun j => ⟨j, 0, false⟩) 2 0 0 = (Outcome.Running, true)
    ∧ enrollar_cobre_manual_loop 2 (fun j => ⟨j, 0, false⟩) 3 0 0 = (Outcome.Completed, false)
    ∧ enrollar_cobre_manual_loop 2 (fun j => ⟨j, 0, false⟩) 2 0 0 = (Outcome.Running, true) := by
  have H := c4_manual_completion (fun j => ⟨j, 0, false⟩) 2
  have H1 := H.1 2 (by decide) (by decide)
  have H2 := H.2 2 (by decide) (by decide)
  exact ⟨H1.1 0 0, H1.2 2 0 (by decide), H2.1 0 0, H2.2 2 0 (by decide)⟩

/-- C5: metresToPulses is the floor of metres * 100 * pulses_per_cm with
pulses_per_cm = pulses_per_revolution / (pi * drum_diameter_cm), pi being the
source's literal 3.1416, and for every non-negative metres the round trip
pulsesToMetres (metresToPulses metres) recovers metres to within 1/2273 of a
metre (less than one pulse), never overshooting. -/
theorem c5_metres_pulses_roundtrip (metros : ℕ) :
    metresToPulses metros
      = ⌊(metros : ℚ) * 100 * (PULSOS_POR_VUELTA / (approxPi * DIAMETRO_TAMBOR_CM))⌋
    ∧ pulsesToMetres (metresToPulses metros) ≤ (metros : ℚ)
    ∧ (metros : ℚ) - pulsesToMetres (metresToPulses metros) < 1 / 2273 := by
  refine ⟨?_, ?_, ?_⟩
  · rw [metresToPulses]
    congr 1
    rw [PULSOS_POR_METRO, PULSOS_POR_CM, CM_POR_VUELTA]
    ring
  · rw [pulsesToMetres, metresToPulses, div_le_iff₀ ppm_pos]
    exact Int.floor_le _
  · rw [pulsesToMetres, metresToPulses]
    have key : (metros : ℚ) - (⌊(metros : ℚ) * PULSOS_POR_METRO⌋ : ℚ) / PULSOS_POR_METRO
        < 1 / PULSOS_POR_METRO := by
      rw [sub_lt_iff_lt_add, div_add_div_same, lt_div_iff₀ ppm_pos]
      calc (metros : ℚ) * PULSOS_POR_METRO
          < ⌊(metros : ℚ) * PULSOS_POR_METRO⌋ + 1 := Int.lt_floor_add_one _
        _ = 1 + ⌊(metros : ℚ) * PULSOS_POR_METRO⌋ := by ring
    exact lt_trans key ppm_inv_lt

/-- C6: for every inductance between 10 and 2000 mH, calcular_vueltas_para_mH
returns a positive number of turns, monotonically non-decreasing in the
requested inductance, and the returned n is exactly the round-half-up of
sqrt ((L * h) / (mu0 * A)) with L = milliHenries / 1000: the radicand 4 * q
lies in [(2n-1)^2, (2n+1)^2), i.e. n - 1/2 ≤ sqrt q < n + 1/2. -/
theorem c6_turns_for_inductance (mH : ℕ) (h1 : 10 ≤ mH) (h2 : mH ≤ 2000) :
    0 < calcular_vueltas_para_mH mH
    ∧ (∀ mHq, mH ≤ mHq → calcular_vueltas_para_mH mH ≤ calcular_vueltas_para_mH mHq)
    ∧ (2 * (calcular_vueltas_para_mH mH : ℚ) - 1) ^ 2 ≤ 4 * turnsSquared mH
    ∧ 4 * turnsSquared mH < (2 * (calcular_vueltas_para_mH mH : ℚ) + 1) ^ 2 := by
  have hpos := calcular_pos h1
  refine ⟨hpos, fun mHq hm => roundHalfUpSqrt_mono (turnsSquared_mono hm), ?_, ?_⟩
  · exact roundHalfUpSqrt_lb (turnsSquared_nonneg mH) hpos
  · exact roundHalfUpSqrt_ub (turnsSquared_nonneg mH)

/-- Witness for c6_turns_for_inductance at 100 mH. -/
theorem c6_turns_for_inductance_witness :
    10 ≤ 100 ∧ 100 ≤ 2000
    ∧ 0 < calcular_vueltas_para_mH 100
    ∧ calcular_vueltas_para_mH 100 ≤ calcular_vueltas_para_mH 1000 := by
  have H := c6_turns_for_inductance 100 (by decide) (by decide)
  exact ⟨by decide, by decide, H.1, H.2.1 1000 (by decide)⟩

/-- C7: the copper-auto run uses exactly calcular_vueltas_para_mH 1000 as its
turns target, the same function copper-manual applies to the selected
inductance, with no special-cased divergence: the whole copper-auto loop (and
run) coincides with the copper-manual loop (and run) at that target. -/
theorem c7_cobre_auto_target :
    (∀ (tr : ℕ → Sample) (fuel i : ℕ) (u : ℤ),
      enrollar_cobre_auto_loop tr fuel i u
        = enrollar_cobre_manual_loop (calcular_vueltas_para_mH 1000) tr fuel i u)
    ∧ (∀ (tr : ℕ → Sample) (fuel : ℕ),
      enrollar_cobre_auto tr fuel = enrollar_cobre_manual 1000 tr fuel) := by
  refine ⟨fun tr fuel i u => cobre_auto_loop_eq tr fuel i u, fun tr fuel => ?_⟩
  rw [enrollar_cobre_auto, enrollar_cobre_manual]
  exact cobre_auto_loop_eq tr fuel 0 0

/-- C8 counterexample: with bounds 50..130 the commanded-angle stream reaches
the maximum at step 80 but repeats 130 at step 81 instead of moving one unit in
the reversed direction: the direction does not flip into motion on the step
right after the bound is reached. -/
theorem c8_bound_dwell_cex :
    servoStream 50 130 80 = 130 ∧ servoStream 50 130 81 = 130
    ∧ ¬ servoStream 50 130 81 = 129 := by decide

/-- C8 (amended): the commanded-angle stream of the distribution oscillator,
driven for any number of steps with bounds min_angle ≤ max_angle, never leaves
[min_angle, max_angle]; with the reference bounds 50..130 it starts at 50,
rises by one unit per step reaching 130 at step 80, emits the bound angle 130
once more at step 81 (a one-step dwell instead of an immediate reversed step),
and then descends by one unit per step back to 50 at step 161. -/
theorem c8_oscillator_invariants (mn mx : ℤ) (k : ℕ) (h : mn ≤ mx) :
    (mn ≤ servoStream mn mx k ∧ servoStream mn mx k ≤ mx)
    ∧ servoStream 50 130 0 = 50
    ∧ servoStream 50 130 80 = 130
    ∧ servoStream 50 130 81 = 130
    ∧ (∀ j, j < 80 → servoStream 50 130 (j + 1) = servoStream 50 130 j + 1)
    ∧ (∀ j, 81 ≤ j → j < 161 → servoStream 50 130 (j + 1) = servoStream 50 130 j - 1)
    ∧ servoStream 50 130 161 = 50 := by
  refine ⟨stream_bounds mn mx h k, by decide, by decide, by decide, by decide, by decide,
    by decide⟩

/-- Witness for c8_oscillator_invariants at the reference bounds. -/
theorem c8_oscillator_invariants_witness :
    ((50 : ℤ) ≤ 130)
    ∧ (50 ≤ servoStream 50 130 7 ∧ servoStream 50 130 7 ≤ 130)
    ∧ servoStream 50 130 (5 + 1) = servoStream 50 130 5 + 1
    ∧ servoStream 50 130 (100 + 1) = servoStream 50 130 100 - 1 := by
  have H := c8_oscillator_invariants 50 130 7 (by decide)
  exact ⟨by decide, H.1, H.2.2.2.2.1 5 (by decide), H.2.2.2.2.2.1 100 (by decide) (by decide)⟩

/-- C9: the pulse counter starts from zero at the start of every winding run
(the runs reset it before entering their loops, modelled by counting from the
empty event list); the edge handler's only effect is a single increment,
performed exactly when the event is a falling edge on the encoder pin, so the
count after any event sequence equals the number of qualifying falling edges;
the counter is never decremented, hence the value the control loop observes is
monotonically non-decreasing across the iterations of one run. -/
theorem c9_pulse_counter :
    pulsosAfter [] = 0
    ∧ (∀ (e : GpioEvent) (p : ℕ),
      gpio_callback e p = if e.gpio = OPT_ENCODER_DT ∧ e.edgeFall = true then p + 1 else p)
    ∧ (∀ (e : GpioEvent) (p : ℕ), p ≤ gpio_callback e p)
    ∧ (∀ evs : List GpioEvent,
      pulsosAfter evs = (evs.filter fun e => e.gpio == OPT_ENCODER_DT && e.edgeFall).length)
    ∧ (∀ sched : ℕ → List GpioEvent, counterTrace sched 0 = 0)
    ∧ (∀ (sched : ℕ → List GpioEvent) (i : ℕ),
      counterTrace sched i ≤ counterTrace sched (i + 1)) := by
  refine ⟨rfl, fun e p => rfl, fun e p => ?_, fun evs => ?_, fun sched => rfl,
    fun sched i => ?_⟩
  · unfold gpio_callback
    split_ifs <;> omega
  · rw [pulsosAfter, gpio_foldl_eq]
    omega
  · simp only [counterTrace]
    rw [eventsUpTo, pulsosAfter_append]
    omega

/-- C10: leer_fuerza always returns 0, which is not above the 3000 threshold,
so with the tension input wired to the actual stub no winding mode can ever
end in AbortedByTension: the excessive-tension abort branch, the only place
the tension check disables the motor, is unreachable in the reference
implementation. -/
theorem c10_tension_unreachable :
    leer_fuerza = 0
    ∧ ¬ (leer_fuerza > 3000)
    ∧ (∀ (p : ℕ → ℕ) (st : ℕ → Bool) (target : ℤ) (fuel i : ℕ) (u : ℤ),
      (enrollar_hasta_loop target (actualTrace p st) fuel i u).1 ≠ Outcome.AbortedByTension)
    ∧ (∀ (p : ℕ → ℕ) (st : ℕ → Bool) (fuel i : ℕ) (u : ℤ),
      (enrollar_auto_loop (actualTrace p st) fuel i u).1 ≠ Outcome.AbortedByTension)
    ∧ (∀ (p : ℕ → ℕ) (st : ℕ → Bool) (target : ℕ) (fuel i : ℕ) (u : ℤ),
      (enrollar_cobre_manual_loop target (actualTrace p st) fuel i u).1
        ≠ Outcome.AbortedByTension)
    ∧ (∀ (p : ℕ → ℕ) (st : ℕ → Bool) (fuel i : ℕ) (u : ℤ),
      (enrollar_cobre_auto_loop (actualTrace p st) fuel i u).1
        ≠ Outcome.AbortedByTension) := by
  refine ⟨rfl, by decide,
    fun p st target fuel i u => hasta_actual_no_tension p st target fuel i u,
    fun p st fuel i u => auto_actual_no_tension p st fuel i u,
    fun p st target fuel i u => cobre_actual_no_tension p st target fuel i u,
    fun p st fuel i u => ?_⟩
  rw [cobre_auto_loop_eq]
  exact cobre_actual_no_tension p st (calcular_vueltas_para_mH 1000) fuel i u

/-- Witness for c10_tension_unreachable at a concrete run. -/
theorem c10_tension_unreachable_witness :
    (enrollar_auto_loop (actualTrace (fun _ => 0) (fun _ => true)) 1 0 0).1
      ≠ Outcome.AbortedByTension :=
  c10_tension_unreachable.2.2.2.1 (fun _ => 0) (fun _ => true) 1 0 0
